import Mathlib

/-!
# Logical replication writer processor: a shallow embedding

This file embeds the core of
`pkg/ccl/crosscluster/logical/logical_replication_writer_processor.go`
in Lean 4 and proves (or refutes) the frozen claims about it.

Modelling conventions:
* byte strings (`roachpb.Key`) are `List Nat`, compared lexicographically
  (Go `bytes.Compare`, with a shorter prefix ordered first), which is exactly
  the `LinearOrder (List Nat)` lexicographic order;
* `hlc.Timestamp` is a `Nat` (only its total order matters here);
* a `streampb.StreamEvent_KV` is a `KV` record; the Go zero value
  `streampb.StreamEvent_KV{}` is `KV.zero` (empty key);
* Go slices that are tested against `nil` are `Option (List _)`, so that the
  `nil` / empty-but-non-`nil` distinction of the source is preserved;
* fallible Go calls return `Except`;
* external collaborators (the row processor behind `BatchHandler.HandleBatch`,
  the DLQ client's `Log`, `span.Frontier.Forward`, and the row-prefix
  truncation `keys.EnsureSafeSplitKey`) are parameters of the model: the
  claims hold for every behaviour of these collaborators;
* the in-place mutation of the shared KV buffer is modelled by returning the
  updated chunk contents from `flushChunk` and reassembling them.
-/

/-- A byte-string key (`roachpb.Key`). -/
abbrev Key := List Nat

/-- `streampb.StreamEvent_KV`: a key, a value carrying its commit timestamp,
and an opaque value payload standing for the rest of the KV (previous value,
origin, ...). -/
structure KV where
  key : Key
  ts : Nat
  val : Nat
  deriving DecidableEq, Repr

/-- The Go zero value `streampb.StreamEvent_KV{}` used as the "processed"
sentinel. -/
def KV.zero : KV := ⟨[], 0, 0⟩

instance : Inhabited KV := ⟨KV.zero⟩

/-- `batchStats` (source lines 673-677). -/
structure batchStats where
  notProcessed : Nat
  byteSize : Nat
  optimisticInsertConflicts : Nat
  deriving DecidableEq, Repr

/-- `batchStats.Add` (source lines 679-682). Note that the source does *not*
add `notProcessed`; it is incremented directly in `flushChunk`. -/
def batchStats.Add (b o : batchStats) : batchStats :=
  { b with
    byteSize := b.byteSize + o.byteSize
    optimisticInsertConflicts :=
      b.optimisticInsertConflicts + o.optimisticInsertConflicts }

def batchStats.zero : batchStats := ⟨0, 0, 0⟩

/-- The comparator handed to `slices.SortFunc` in `flushBuffer` (source lines
515-520) orders two KVs by row-prefix key (`k a` vs `k b`, lexicographic byte
compare) and then by commit timestamp.  `kvLE k a b` holds exactly when that
comparator returns a non-positive value on `(a, b)`.  The row-prefix function
`k` (`keys.EnsureSafeSplitKey` with fallback to the full key) is a parameter
of the model. -/
def kvLE (k : KV → Key) (a b : KV) : Prop :=
  k a < k b ∨ (k a = k b ∧ a.ts ≤ b.ts)

instance (k : KV → Key) : DecidableRel (kvLE k) := fun a b => by
  unfold kvLE; infer_instance

instance (k : KV → Key) : IsTrans KV (kvLE k) :=
  ⟨by
    rintro a b c (hab | ⟨hab, hts⟩) (hbc | ⟨hbc, hts'⟩)
    · exact Or.inl (lt_trans hab hbc)
    · exact Or.inl (hbc ▸ hab)
    · exact Or.inl (hab ▸ hbc)
    · exact Or.inr ⟨hab.trans hbc, le_trans hts hts'⟩⟩

instance (k : KV → Key) : IsTotal KV (kvLE k) :=
  ⟨by
    intro a b
    rcases lt_trichotomy (k a) (k b) with h | h | h
    · exact Or.inl (Or.inl h)
    · rcases Nat.le_total a.ts b.ts with h' | h'
      · exact Or.inl (Or.inr ⟨h, h'⟩)
      · exact Or.inr (Or.inr ⟨h.symm, h'⟩)
    · exact Or.inr (Or.inl h)⟩

/-- The in-place `slices.SortFunc(kvs, ...)` of `flushBuffer` (source lines
515-520), modelled as a sorting function returning a permutation of the
buffer that is sorted w.r.t. the comparator. -/
def sortKVs (k : KV → Key) (kvs : List KV) : List KV :=
  List.insertionSort (kvLE k) kvs

/-- `maxWriterWorkers` (source line 480). -/
def maxWriterWorkers : Nat := 32

/-- `minChunkSize` and the chunk target size computed in `flushBuffer`
(source lines 524-525): `chunkSize := max((len(kvs)/len(lrw.bh))+1,
minChunkSize)`, with Go integer division (floor). -/
def chunkSizeOf (n : Nat) : Nat := max (n / maxWriterWorkers + 1) 64

/-- The chunk-size formula as the spec words it: `max(⌈N/W⌉+1, 64)` with a
*ceiling* division.  This follows the spec's words, to be compared with
`chunkSizeOf`, which is translated from the source. -/
def chunkSizeOfSpecCeil (n : Nat) : Nat :=
  max ((n + maxWriterWorkers - 1) / maxWriterWorkers + 1) 64

/-- The chunk-extension loop of `flushBuffer` (source lines 535-537): after
the target end, keep appending the next KV while its row prefix equals the
row prefix of the chunk's current last element.  `last` is the chunk's
current last element, the returned pair is (extension, rest). -/
def extendRun (k : KV → Key) (last : KV) : List KV → List KV × List KV
  | [] => ([], [])
  | x :: xs =>
    if k last = k x then
      (x :: (extendRun k x xs).1, (extendRun k x xs).2)
    else ([], x :: xs)

/-- One iteration of the chunking loop in `flushBuffer` (source lines
533-539): take the first `min size (length kvs)` elements as the chunk body,
then extend the chunk while the next key shares the row prefix of the chunk's
last element.  Returns (chunk, rest). -/
def takeChunk (k : KV → Key) (size : Nat) (kvs : List KV) : List KV × List KV :=
  match (kvs.take size).getLast? with
  | none => ([], kvs)
  | some last =>
    (kvs.take size ++ (extendRun k last (kvs.drop size)).1,
      (extendRun k last (kvs.drop size)).2)

/-- The chunking loop of `flushBuffer` (source lines 529-552): up to
`fuel = len(lrw.bh) = 32` iterations, stopping early when the buffer is
exhausted.  Returns the dispatched chunks and the leftover value of the `kvs`
variable after the loop. -/
def makeChunks (k : KV → Key) (size : Nat) : Nat → List KV → List (List KV) × List KV
  | 0, kvs => ([], kvs)
  | _ + 1, [] => ([], [])
  | fuel + 1, x :: xs =>
    ((takeChunk k size (x :: xs)).1 ::
        (makeChunks k size fuel (takeChunk k size (x :: xs)).2).1,
      (makeChunks k size fuel (takeChunk k size (x :: xs)).2).2)

/-- `filterRemaining` (source lines 464-478): keep the entries whose key is
non-empty (`len(kvs[i].KeyValue.Key) != 0`).  The reallocate-on-half-shrink
branch changes only aliasing, not the value, so it does not appear in the
model. -/
def filterRemaining (kvs : List KV) : List KV :=
  kvs.filter (fun kv => !kv.key.isEmpty)

/-- `shouldRetryLater` (source lines 645-648): returns `true`
unconditionally, whatever the error was. -/
def shouldRetryLater (_err : Unit) : Bool := true

/-- Failure disposition for a single event (source lines 601-607 and
613-619): if `mustProcess` or `!shouldRetryLater(err)`, send it to the DLQ
(and fail fatally if the DLQ write fails); otherwise leave the slot and count
it as not processed.  Returns `(slot after, notProcessed delta, DLQ'd
events)`.  Note that the source does not zero the slot on the DLQ path. -/
def singleFailure (must : Bool) (dlqFail : KV → Bool) (kv : KV) :
    Except Unit (KV × Nat × List KV) :=
  if must || !shouldRetryLater () then
    if dlqFail kv then .error () else .ok (kv, 0, [kv])
  else
    .ok (kv, 1, [])

/-- The per-row retry loop run when a batch of size > 1 fails (source lines
609-624): each row is re-attempted as a size-1 batch; on success the slot is
zeroed and the row stats added, on failure the single-event disposition
applies.  `st` is the accumulated `stats` local of `flushChunk`. -/
def retryIndividually (must : Bool) (H : List KV → Option batchStats)
    (dlqFail : KV → Bool) :
    List KV → batchStats → Except Unit (List KV × batchStats × List KV)
  | [], st => .ok ([], st, [])
  | kv :: rest, st =>
    match H [kv] with
    | some s =>
      match retryIndividually must H dlqFail rest (st.Add s) with
      | .error e => .error e
      | .ok (slots, st', dl) => .ok (KV.zero :: slots, st', dl)
    | none =>
      match singleFailure must dlqFail kv with
      | .error e => .error e
      | .ok (slot, np, dl₁) =>
        match retryIndividually must H dlqFail rest
            { st with notProcessed := st.notProcessed + np } with
        | .error e => .error e
        | .ok (slots, st', dl) => .ok (slot :: slots, st', dl₁ ++ dl)

/-- One batch iteration of `flushChunk` (source lines 598-632): attempt the
whole batch; on success zero every slot and add the stats; on failure apply
the single-event disposition (size 1) or retry each row individually
(size > 1). -/
def processBatch (must : Bool) (H : List KV → Option batchStats)
    (dlqFail : KV → Bool) (batch : List KV) (st : batchStats) :
    Except Unit (List KV × batchStats × List KV) :=
  match H batch with
  | some s => .ok (batch.map (fun _ => KV.zero), st.Add s, [])
  | none =>
    match batch with
    | [kv] =>
      match singleFailure must dlqFail kv with
      | .error e => .error e
      | .ok (slot, np, dl) =>
        .ok ([slot], { st with notProcessed := st.notProcessed + np }, dl)
    | _ => retryIndividually must H dlqFail batch st

/-- The batch loop of `flushChunk` (source lines 593-637): repeatedly slice
off `chunk[:min(batchSize, len(chunk))]` and process it.  The source loop
makes no progress when `batchSize = 0` (it would spin forever); the model
returns an error when the fuel — initialised to the chunk length, enough for
any `batchSize ≥ 1` — runs out. -/
def flushChunkGo (must : Bool) (H : List KV → Option batchStats)
    (dlqFail : KV → Bool) (batchSize : Nat) :
    Nat → List KV → batchStats → Except Unit (List KV × batchStats × List KV)
  | _, [], st => .ok ([], st, [])
  | 0, _ :: _, _ => .error ()
  | fuel + 1, chunk@(_ :: _), st =>
    match processBatch must H dlqFail (chunk.take batchSize) st with
    | .error e => .error e
    | .ok (slots, st', dl) =>
      match flushChunkGo must H dlqFail batchSize fuel (chunk.drop batchSize) st' with
      | .error e => .error e
      | .ok (slots', st'', dl') => .ok (slots ++ slots', st'', dl ++ dl')

/-- The effective batch size of `flushChunk` (source lines 580-586):
`flushBatchSize` overridden to 1 when `useImplicitTxns` is set. -/
def effBatchSize (batchSize : Nat) (useImplicit : Bool) : Nat :=
  if useImplicit then 1 else batchSize

/-- `flushChunk` (source lines 577-639), for a batch handler whose outcome on
each batch is `H` (`none` = error) and a DLQ client whose `Log` fails on the
events selected by `dlqFail`.  Returns the chunk contents after slot
mutations, the accumulated `batchStats`, and the DLQ'd events in order. -/
def flushChunk (must : Bool) (H : List KV → Option batchStats)
    (dlqFail : KV → Bool) (batchSize : Nat) (useImplicit : Bool)
    (chunk : List KV) : Except Unit (List KV × batchStats × List KV) :=
  flushChunkGo must H dlqFail (effBatchSize batchSize useImplicit)
    chunk.length chunk batchStats.zero

/-- Componentwise sum of two workers' `batchStats`, as accumulated through
the atomics `flushByteSize`/`notProcessed` and the conflict metric in
`flushBuffer` (source lines 547-549). -/
def statsJoin (a b : batchStats) : batchStats :=
  ⟨a.notProcessed + b.notProcessed, a.byteSize + b.byteSize,
    a.optimisticInsertConflicts + b.optimisticInsertConflicts⟩

/-- The worker pool of `flushBuffer` running `flushChunk` on each chunk
(source lines 542-555).  The workers mutate disjoint slots and their stats
are accumulated through atomics, so running them in sequence is a faithful
model; `g.Wait()` surfaces the first error. -/
def runChunks (must : Bool) (H : List KV → Option batchStats)
    (dlqFail : KV → Bool) (batchSize : Nat) (useImplicit : Bool) :
    List (List KV) → Except Unit (List (List KV) × batchStats × List KV)
  | [] => .ok ([], batchStats.zero, [])
  | c :: cs =>
    match flushChunk must H dlqFail batchSize useImplicit c with
    | .error e => .error e
    | .ok (c', st, dl) =>
      match runChunks must H dlqFail batchSize useImplicit cs with
      | .error e => .error e
      | .ok (cs', st', dl') => .ok (c' :: cs', statsJoin st st', dl ++ dl')

/-- The collaborators and settings `flushBuffer` depends on: the row-prefix
truncation `k`, the `flushBatchSize` and `useImplicitTxns` settings, the
batch handler outcome `H`, and the DLQ client failure set `dlqFail`. -/
structure Params where
  k : KV → Key
  batchSize : Nat
  useImplicit : Bool
  H : List KV → Option batchStats
  dlqFail : KV → Bool

/-- The observable outcome of one `flushBuffer` call: the returned
`unapplied` (an `Option` since the source distinguishes `nil`), the final
contents of the caller's buffer after the workers' slot mutations (processed
chunks followed by the loop leftover), the DLQ'd events, and the metric and
debug updates performed. -/
structure FlushResult where
  unapplied : Option (List KV)
  finalBuffer : List KV
  dlqd : List KV
  notProcessed : Nat
  appliedRows : Nat
  appliedBytes : Nat
  c2cBase : Option Nat
  flushStarted : Bool
  chunksDispatched : Nat
  deriving DecidableEq, Repr

/-- The result of the `len(kvs) == 0` early return of `flushBuffer` (source
lines 496-498): `(nil, nil)`, before any debug or metric update. -/
def emptyFlushResult : FlushResult := ⟨none, [], [], 0, 0, 0, none, false, 0⟩

/-- The sort-then-chunk plan of `flushBuffer` (source lines 515-539): sort
the buffer by (row prefix, commit timestamp) and cut it into at most
`maxWriterWorkers` chunks of target size `chunkSizeOf`.  Returns the chunks
and the leftover value of the loop's `kvs` variable. -/
def flushChunksPlan (k : KV → Key) (kvs : List KV) : List (List KV) × List KV :=
  makeChunks k (chunkSizeOf kvs.length) maxWriterWorkers (sortKVs k kvs)

/-- `flushBuffer` (source lines 490-574).  Note two aspects translated
directly from the source: `firstKeyTS` is read from `kvs[0]` *before* the
sort (line 513), and `filterRemaining` is applied to the leftover value of
the `kvs` variable after the chunking loop consumed it (lines 538-539 and
558-560), not to the original buffer. -/
def flushBufferImpl (P : Params) (kvs : List KV) (mustProcess : Bool) :
    Except Unit FlushResult :=
  match kvs with
  | [] => .ok emptyFlushResult
  | kv₀ :: tl =>
    match runChunks mustProcess P.H P.dlqFail P.batchSize P.useImplicit
        (flushChunksPlan P.k (kv₀ :: tl)).1 with
    | .error e => .error e
    | .ok (processed, st, dl) =>
      .ok { unapplied :=
              if 0 < st.notProcessed then
                some (filterRemaining (flushChunksPlan P.k (kv₀ :: tl)).2)
              else none
            finalBuffer := processed.flatten ++ (flushChunksPlan P.k (kv₀ :: tl)).2
            dlqd := dl
            notProcessed := st.notProcessed
            appliedRows := (kv₀ :: tl).length
            appliedBytes := st.byteSize
            c2cBase := some kv₀.ts
            flushStarted := true
            chunksDispatched := (flushChunksPlan P.k (kv₀ :: tl)).1.length }

/-- `jobspb.ResolvedSpan`: a span with a resolved timestamp.  The span itself
is opaque to the writer processor (it is only handed to
`frontier.Forward`), so it is modelled as an identifier. -/
structure RSpan where
  span : Nat
  ts : Nat
  deriving DecidableEq, Repr

/-- How a `checkpoint` call fails (source lines 428-436): a protocol error on
`nil` resolved spans, or a fatal frontier-forward error. -/
inductive CkptErr where
  | protocol
  | forward
  deriving DecidableEq, Repr

/-- The `for _, resolvedSpan := range resolvedSpans` loop of `checkpoint`
(source lines 432-437): forward the frontier for each resolved span in order,
stopping at the first error.  The frontier type `F` and `span.Frontier.Forward`
(external to the repository) are parameters. -/
def forwardAll {F : Type} (fwd : F → RSpan → Except Unit F) :
    F → List RSpan → Except Unit F
  | fr, [] => .ok fr
  | fr, rs :: rest =>
    match fwd fr rs with
    | .error e => .error e
    | .ok fr' => forwardAll fwd fr' rest

/-- The successful outcome of `checkpoint` (source lines 439-445): the new
frontier, the resolved spans delivered on `checkpointCh`, and the
`CheckpointEvents` metric increment. -/
structure CheckpointOk (F : Type) where
  frontier : F
  emitted : List RSpan
  metricInc : Nat
  deriving DecidableEq, Repr

/-- `checkpoint` (source lines 417-446).  `spans` is an `Option` because the
source tests `resolvedSpans == nil` (line 428), which an empty non-nil Go
slice passes.  The testing-knob elision (lines 420-426) is omitted: knobs are
nil outside tests. -/
def checkpointImpl {F : Type} (fwd : F → RSpan → Except Unit F) (fr : F)
    (spans : Option (List RSpan)) : Except CkptErr (CheckpointOk F) :=
  match spans with
  | none => .error .protocol
  | some ss =>
    match forwardAll fwd fr ss with
    | .error _ => .error .forward
    | .ok fr' => .ok ⟨fr', ss, 1⟩

/-- Purgatory configuration (spec §3, §4.5): `{deadline, delay, levelLimit}`,
instantiated by the processor to 1 min / 5 s / 10. -/
structure PurgCfg where
  deadline : Nat
  delay : Nat
  levelLimit : Nat
  deriving DecidableEq, Repr

/-- Modelled from the spec: a purgatory entry (spec §3), since `purgatory.go`
is not part of the given sources.  "A deferred buffer of KVs plus the
checkpoint (resolved spans) that would have been emitted after them. Each
entry has an arrival wall time and a retry level."; `lastRetry` records the
time of the last retry attempt, used by the `delay` spacing of Drain. -/
structure PurgEntry where
  events : List KV
  ckpt : Option (List RSpan)
  level : Nat
  since : Nat
  lastRetry : Nat
  deriving DecidableEq, Repr

/-- Modelled from the spec: purgatory `Checkpoint` (spec §4.5), for
non-empty purgatory: "the checkpoint is attached to the most recent
purgatory entry rather than being forwarded". -/
def purgCheckpoint (spans : Option (List RSpan)) :
    List PurgEntry → List PurgEntry
  | [] => []
  | [e] => [{ e with ckpt := spans }]
  | e :: e' :: rest => e :: purgCheckpoint spans (e' :: rest)

/-- Modelled from the spec: purgatory `Drain` (spec §4.5): "walk entries in
insertion order; for each entry where the last retry attempt was at least
`delay` ago, call `flushFn(entry.remaining,
mustProcess=(entry.age≥deadline || entry.level≥levelLimit))`.  Replace
`entry.remaining` with the returned `unapplied`.  If `remaining` becomes
empty, emit the attached checkpoint (if any) via `checkpointFn` and remove
the entry.  Otherwise, increment `entry.level` and keep it."  With
`force = true` this is the force-drain of `Store`, which flushes with
`mustProcess=true`.  `f` is the flush callback (`lrw.flushBuffer`); a flush
error aborts the drain.  The emitted checkpoints are returned in entry order
for the caller (`checkpointFn = lrw.checkpoint`) to forward. -/
def drainGo (cfg : PurgCfg) (now : Nat) (force : Bool)
    (f : List KV → Bool → Except Unit (List KV)) :
    List PurgEntry → Except Unit (List PurgEntry × List (List RSpan))
  | [] => .ok ([], [])
  | e :: rest =>
    if force || decide (cfg.delay ≤ now - e.lastRetry) then
      match f e.events (force || decide (cfg.deadline ≤ now - e.since) ||
          decide (cfg.levelLimit ≤ e.level)) with
      | .error u => .error u
      | .ok remaining =>
        match drainGo cfg now force f rest with
        | .error u => .error u
        | .ok (rest', em) =>
          if remaining.isEmpty then
            .ok (rest', e.ckpt.toList ++ em)
          else
            .ok ({ e with
                    events := remaining
                    level := e.level + 1
                    lastRetry := now } :: rest', em)
    else
      match drainGo cfg now force f rest with
      | .error u => .error u
      | .ok (rest', em) => .ok (e :: rest', em)

/-- Modelled from the spec: the fullness test of purgatory `Store` (spec
§4.5): "purgatory is full (level ≥ `levelLimit` on the oldest entry, or
total residence ≥ `deadline`)". -/
def purgFull (cfg : PurgCfg) (now : Nat) (purg : List PurgEntry) : Bool :=
  match purg.head? with
  | none => false
  | some oldest =>
    decide (cfg.levelLimit ≤ oldest.level) ||
      decide (cfg.deadline ≤ now - oldest.since)

/-- Modelled from the spec: purgatory `Store` (spec §4.5): "if purgatory is
full ..., first force-drain by calling `flushFn(entry, mustProcess=true)` on
eligible entries, which moves their failures to the dead-letter queue.  Then
append a new entry at retry level 0 with current wall time."  Storing an
empty buffer is a no-op (purgatory "holds buffers that failed transient
application", and an empty entry would gate checkpoints forever). -/
def purgStore (cfg : PurgCfg) (now : Nat)
    (f : List KV → Bool → Except Unit (List KV)) (unapplied : List KV)
    (purg : List PurgEntry) :
    Except Unit (List PurgEntry × List (List RSpan)) :=
  if unapplied.isEmpty then .ok (purg, [])
  else
    match (if purgFull cfg now purg then drainGo cfg now true f purg
           else .ok (purg, [])) with
    | .error e => .error e
    | .ok (purg', emitted) =>
      .ok (purg' ++ [⟨unapplied, none, 0, now, now⟩], emitted)

/-- The dispatcher-visible state of the processor: the frontier and the
purgatory entries. -/
structure PState (F : Type) where
  frontier : F
  purg : List PurgEntry
  deriving DecidableEq, Repr

/-- The fatal errors the dispatcher can surface (source lines 370-446). -/
inductive HErr where
  | applyFailed
  | ckptProtocol
  | ckptForward
  | unexpectedOnlineStream
  | unknownType (t : Nat)
  deriving DecidableEq, Repr

/-- The flush callback handed by the processor to purgatory `Store`/`Drain`
(source lines 411 and 457): `lrw.flushBuffer`, whose returned `unapplied`
(nil meaning none left) becomes the entry's new remaining buffer. -/
def drainFlushOf (P : Params) : List KV → Bool → Except Unit (List KV) :=
  fun evs must =>
    match flushBufferImpl P evs must with
    | .error e => .error e
    | .ok r => .ok (r.unapplied.getD [])

/-- Forward the frontier and emit for each checkpoint released by a purgatory
drain, via `checkpoint` (the `checkpointFn` of spec §4.5).  Returns the new
frontier, the lists of resolved spans delivered on `checkpointCh`, and the
metric increments. -/
def emitChain {F : Type} (fwd : F → RSpan → Except Unit F) :
    F → List (List RSpan) → Except CkptErr (F × List (List RSpan) × Nat)
  | fr, [] => .ok (fr, [], 0)
  | fr, ss :: rest =>
    match checkpointImpl fwd fr (some ss) with
    | .error e => .error e
    | .ok r =>
      match emitChain fwd r.frontier rest with
      | .error e => .error e
      | .ok (fr', out, m) => .ok (fr', r.emitted :: out, r.metricInc + m)

/-- `maybeCheckpoint` (source lines 404-415): if purgatory is non-empty, the
checkpoint is attached to purgatory and a drain is attempted (with the
checkpoints the drain releases forwarded through `checkpoint`); otherwise
`checkpoint` is called directly on the resolved spans.  The second component
of the result is the sequence of resolved-span lists delivered on
`checkpointCh`. -/
def maybeCheckpointImpl {F : Type} (P : Params) (cfg : PurgCfg) (now : Nat)
    (fwd : F → RSpan → Except Unit F) (st : PState F)
    (spans : Option (List RSpan)) : Except HErr (PState F × List (List RSpan)) :=
  if st.purg.isEmpty then
    match checkpointImpl fwd st.frontier spans with
    | .error .protocol => .error .ckptProtocol
    | .error .forward => .error .ckptForward
    | .ok r => .ok ({ st with frontier := r.frontier }, [r.emitted])
  else
    let purg₁ := purgCheckpoint spans st.purg
    match drainGo cfg now false (drainFlushOf P) purg₁ with
    | .error _ => .error .applyFailed
    | .ok (purg₂, emitted) =>
      match emitChain fwd st.frontier emitted with
      | .error .protocol => .error .ckptProtocol
      | .error .forward => .error .ckptForward
      | .ok (fr', out, _) => .ok (⟨fr', purg₂⟩, out)

/-- `handleStreamBuffer` (source lines 448-462): flush the incoming KV buffer
with `mustProcess = false`, then store whatever failed to apply into
purgatory (which may force-drain and release checkpoints, forwarded through
`checkpoint`). -/
def handleStreamBufferImpl {F : Type} (P : Params) (cfg : PurgCfg) (now : Nat)
    (fwd : F → RSpan → Except Unit F) (st : PState F) (kvs : List KV) :
    Except HErr (PState F × List (List RSpan)) :=
  match flushBufferImpl P kvs false with
  | .error _ => .error .applyFailed
  | .ok r =>
    match purgStore cfg now (drainFlushOf P) (r.unapplied.getD []) st.purg with
    | .error _ => .error .applyFailed
    | .ok (purg', emitted) =>
      match emitChain fwd st.frontier emitted with
      | .error .protocol => .error .ckptProtocol
      | .error .forward => .error .ckptForward
      | .ok (fr', out, _) => .ok (⟨fr', purg'⟩, out)

/-- The event kinds of `crosscluster.Event` as dispatched by `handleEvent`
(source lines 381-400): KV, checkpoint, SSTable, delete-range, split, and a
catch-all for any other type tag (the `default` case). -/
inductive Event where
  | kv (kvs : List KV)
  | checkpoint (spans : Option (List RSpan))
  | sstable
  | deleteRange
  | split
  | other (t : Nat)

/-- `handleEvent` (source lines 370-402).  KV events go to the applier via
`handleStreamBuffer`; checkpoint events go to the frontier gate
`maybeCheckpoint`; SSTable and delete-range events are the fatal "unexpected
event for online stream"; split events are logged and ignored; any other
event type is the fatal unknown-event error. -/
def handleEventImpl {F : Type} (P : Params) (cfg : PurgCfg) (now : Nat)
    (fwd : F → RSpan → Except Unit F) (st : PState F) :
    Event → Except HErr (PState F × List (List RSpan))
  | .kv kvs => handleStreamBufferImpl P cfg now fwd st kvs
  | .checkpoint spans => maybeCheckpointImpl P cfg now fwd st spans
  | .sstable => .error .unexpectedOnlineStream
  | .deleteRange => .error .unexpectedOnlineStream
  | .split => .ok (st, [])
  | .other t => .error (.unknownType t)

/-! Concrete collaborator instances used to evaluate the model on explicit
inputs. -/

/-- The identity row-prefix function (a key that is its own row prefix, as
when `EnsureSafeSplitKey` fails and the full key is used). -/
def keyId : KV → Key := fun kv => kv.key

/-- A batch handler that applies every batch successfully with empty stats. -/
def okHandler : List KV → Option batchStats := fun _ => some batchStats.zero

/-- A batch handler that fails on every batch. -/
def failHandler : List KV → Option batchStats := fun _ => none

/-- A batch handler that succeeds exactly on the single-row batch
`[⟨[2], 0, 0⟩]`, with stats `⟨5, 3, 2⟩`. -/
def bOnlyHandler : List KV → Option batchStats :=
  fun b => if b = [⟨[2], 0, 0⟩] then some ⟨5, 3, 2⟩ else none

/-- A DLQ client whose `Log` always succeeds. -/
def noDlqFail : KV → Bool := fun _ => false

/-- Parameters with an always-succeeding handler, implicit txns, batch size
1, and a reliable DLQ. -/
def okParams : Params := ⟨keyId, 1, true, okHandler, noDlqFail⟩

/-- Parameters with an always-failing handler, implicit txns, batch size 1,
and a reliable DLQ. -/
def failParams : Params := ⟨keyId, 1, true, failHandler, noDlqFail⟩

/-- A frontier-forward that always succeeds, over the trivial frontier. -/
def unitForward : Unit → RSpan → Except Unit Unit := fun _ _ => .ok ()

/-- A frontier-forward over a `Nat` frontier counting forwards. -/
def natForward : Nat → RSpan → Except Unit Nat := fun f _ => .ok (f + 1)

/-- A purgatory configuration: deadline 100, delay 10, level limit 10. -/
def cfg₀ : PurgCfg := ⟨100, 10, 10⟩

/-- A purgatory entry whose last retry was recent (at time 5), so that a
drain at time 10 under `cfg₀` skips it. -/
def entryA : PurgEntry := ⟨[⟨[1], 1, 0⟩], none, 0, 6, 5⟩

/-- A purgatory entry eligible for retry at time 10 under `cfg₀`. -/
def entryB : PurgEntry := ⟨[⟨[2], 2, 0⟩], none, 0, 0, 0⟩

/-! ## Helper lemmas -/

theorem sortKVs_perm (k : KV → Key) (kvs : List KV) :
    List.Perm (sortKVs k kvs) kvs :=
  List.perm_insertionSort (kvLE k) kvs

theorem sortKVs_sorted (k : KV → Key) (kvs : List KV) :
    (sortKVs k kvs).Pairwise (kvLE k) :=
  List.sorted_insertionSort (kvLE k) kvs

theorem sortKVs_key_sorted (k : KV → Key) (kvs : List KV) :
    (sortKVs k kvs).Pairwise (fun a b => k a ≤ k b) :=
  (sortKVs_sorted k kvs).imp (fun h => by
    rcases h with h | ⟨h, _⟩
    · exact le_of_lt h
    · exact le_of_eq h)

theorem sortKVs_length (k : KV → Key) (kvs : List KV) :
    (sortKVs k kvs).length = kvs.length :=
  (sortKVs_perm k kvs).length_eq

theorem extendRun_append (k : KV → Key) (l : List KV) : ∀ (last : KV),
    (extendRun k last l).1 ++ (extendRun k last l).2 = l := by
  induction l with
  | nil => intro last; rfl
  | cons x xs ih =>
    intro last
    simp only [extendRun]
    split
    · simpa using ih x
    · rfl

theorem extendRun_keys (k : KV → Key) (l : List KV) : ∀ (last : KV),
    ∀ x ∈ (extendRun k last l).1, k x = k last := by
  induction l with
  | nil => intro last x hx; simp [extendRun] at hx
  | cons y ys ih =>
    intro last x hx
    simp only [extendRun] at hx
    split at hx
    · rcases List.mem_cons.mp hx with rfl | hx
      · exact (by assumption : k last = k x).symm
      · exact (ih y x hx).trans (by assumption : k last = k y).symm
    · simp at hx

theorem extendRun_stop (k : KV → Key) (l : List KV) : ∀ (last : KV),
    ∀ h t, (extendRun k last l).2 = h :: t → k h ≠ k last := by
  induction l with
  | nil => intro last h t he; simp [extendRun] at he
  | cons y ys ih =>
    intro last h t he
    simp only [extendRun] at he
    split at he
    · rename_i heq
      exact fun hk => ih y h t he (hk.trans heq)
    · rename_i hne
      cases he
      exact fun hk => hne hk.symm

theorem takeChunk_append (k : KV → Key) (n : Nat) (kvs : List KV) :
    (takeChunk k n kvs).1 ++ (takeChunk k n kvs).2 = kvs := by
  unfold takeChunk
  split
  · rfl
  · rw [List.append_assoc, extendRun_append, List.take_append_drop]

theorem takeChunk_length (k : KV → Key) (n : Nat) (kvs : List KV) :
    min n kvs.length ≤ (takeChunk k n kvs).1.length := by
  unfold takeChunk
  split
  · rename_i hnone
    have : kvs.take n = [] := List.getLast?_eq_none_iff.mp hnone
    have h2 : min n kvs.length = 0 := by
      have := congrArg List.length this
      simpa using this
    simp [h2]
  · rename_i last _
    have h3 : (kvs.take n).length ≤ (kvs.take n ++ (extendRun k last (kvs.drop n)).1).length := by
      simp
    simp only [List.length_take] at h3
    exact h3

theorem makeChunks_flatten (k : KV → Key) (n : Nat) : ∀ (fuel : Nat) (kvs : List KV),
    (makeChunks k n fuel kvs).1.flatten ++ (makeChunks k n fuel kvs).2 = kvs := by
  intro fuel
  induction fuel with
  | zero => intro kvs; rfl
  | succ m ih =>
    intro kvs
    match kvs with
    | [] => rfl
    | x :: xs =>
      simp only [makeChunks, List.flatten_cons, List.append_assoc]
      rw [ih ((takeChunk k n (x :: xs)).2)]
      exact takeChunk_append k n (x :: xs)

theorem makeChunks_count (k : KV → Key) (n : Nat) : ∀ (fuel : Nat) (kvs : List KV),
    (makeChunks k n fuel kvs).1.length ≤ fuel := by
  intro fuel
  induction fuel with
  | zero => intro kvs; exact Nat.le_refl 0
  | succ m ih =>
    intro kvs
    match kvs with
    | [] => exact Nat.zero_le _
    | x :: xs =>
      simpa [makeChunks] using ih ((takeChunk k n (x :: xs)).2)

theorem makeChunks_rest_nil (k : KV → Key) (n : Nat) :
    ∀ (fuel : Nat) (kvs : List KV), kvs.length ≤ n * fuel →
    (makeChunks k n fuel kvs).2 = [] := by
  intro fuel
  induction fuel with
  | zero =>
    intro kvs hlen
    have : kvs = [] := List.length_eq_zero.mp (Nat.le_antisymm (by simpa using hlen) (Nat.zero_le _))
    simp [makeChunks, this]
  | succ m ih =>
    intro kvs hlen
    match kvs with
    | [] => rfl
    | x :: xs =>
      simp only [makeChunks]
      apply ih
      have hsplit := congrArg List.length (takeChunk_append k n (x :: xs))
      simp only [List.length_append] at hsplit
      have hcl := takeChunk_length k n (x :: xs)
      have hmin : min n (x :: xs).length = n ∨ min n (x :: xs).length = (x :: xs).length := by
        rcases Nat.le_total n (x :: xs).length with h | h
        · exact Or.inl (Nat.min_eq_left h)
        · exact Or.inr (Nat.min_eq_right h)
      rcases hmin with hmin | hmin
      · rw [hmin] at hcl
        have : (x :: xs).length ≤ n * (m + 1) := hlen
        have hm : n * (m + 1) = n * m + n := by ring
        omega
      · rw [hmin] at hcl
        omega

theorem pairwise_getLast? {R : KV → KV → Prop} :
    ∀ (l : List KV) (z : KV), l.Pairwise R → l.getLast? = some z →
    ∀ a ∈ l, R a z ∨ a = z := by
  intro l
  induction l with
  | nil => intro z _ hz; simp at hz
  | cons x xs ih =>
    intro z hp hz a ha
    cases xs with
    | nil =>
      have hxz : x = z := by
        have : some x = some z := hz
        exact Option.some.inj this
      have hax : a = x := by simpa using ha
      exact Or.inr (hax.trans hxz)
    | cons y ys =>
      rw [List.getLast?_cons_cons] at hz
      rcases List.mem_cons.mp ha with rfl | ha'
      · exact Or.inl (List.rel_of_pairwise_cons hp (List.mem_of_mem_getLast? hz))
      · exact ih z (List.pairwise_cons.mp hp).2 hz a ha'

theorem takeChunk_disjoint_aux (k : KV → Key) (n : Nat) (kvs : List KV) (last : KV)
    (hlast : (kvs.take n).getLast? = some last)
    (hs : kvs.Pairwise (fun a b => k a ≤ k b)) :
    ∀ a ∈ kvs.take n ++ (extendRun k last (kvs.drop n)).1,
    ∀ b ∈ (extendRun k last (kvs.drop n)).2, k a ≠ k b := by
  intro a ha b hb
  cases hE : (extendRun k last (kvs.drop n)).2 with
  | nil => rw [hE] at hb; simp at hb
  | cons h t =>
    rw [hE] at hb
    have hstop : k h ≠ k last := extendRun_stop k (kvs.drop n) last h t hE
    have hdecomp : kvs.take n ++
        ((extendRun k last (kvs.drop n)).1 ++ (extendRun k last (kvs.drop n)).2) = kvs := by
      rw [extendRun_append, List.take_append_drop]
    have hp : (kvs.take n ++
        ((extendRun k last (kvs.drop n)).1 ++ (extendRun k last (kvs.drop n)).2)).Pairwise
        (fun a b => k a ≤ k b) := by rw [hdecomp]; exact hs
    rw [List.pairwise_append] at hp
    obtain ⟨hpTake, hpD, hpCross⟩ := hp
    have hlastMem : last ∈ kvs.take n := List.mem_of_mem_getLast? hlast
    have hlh : k last ≤ k h := hpCross last hlastMem h
      (by rw [hE]; exact List.mem_append_right _ (List.mem_cons_self h t))
    have hlh' : k last < k h := lt_of_le_of_ne hlh (fun he => hstop he.symm)
    have hpE2 : (h :: t).Pairwise (fun a b => k a ≤ k b) := by
      have h2 := (List.pairwise_append.mp hpD).2.1
      rwa [hE] at h2
    have hhb : k h ≤ k b := by
      rcases List.mem_cons.mp hb with rfl | hbt
      · exact le_refl _
      · exact List.rel_of_pairwise_cons hpE2 hbt
    have hal : k a ≤ k last := by
      rcases List.mem_append.mp ha with haT | haE
      · rcases pairwise_getLast? (kvs.take n) last hpTake hlast a haT with h' | rfl
        · exact h'
        · exact le_refl _
      · exact le_of_eq (extendRun_keys k (kvs.drop n) last a haE)
    exact fun he => absurd he.symm (ne_of_gt (lt_of_lt_of_le (lt_of_le_of_lt hal hlh') hhb))

theorem takeChunk_disjoint (k : KV → Key) (n : Nat) (kvs : List KV)
    (hs : kvs.Pairwise (fun a b => k a ≤ k b)) :
    ∀ a ∈ (takeChunk k n kvs).1, ∀ b ∈ (takeChunk k n kvs).2, k a ≠ k b := by
  unfold takeChunk
  split
  · intro a ha; simp at ha
  · rename_i last hlast
    exact takeChunk_disjoint_aux k n kvs last hlast hs

theorem makeChunks_disjoint (k : KV → Key) (n : Nat) :
    ∀ (fuel : Nat) (kvs : List KV), kvs.Pairwise (fun a b => k a ≤ k b) →
    (makeChunks k n fuel kvs).1.Pairwise
      (fun c₁ c₂ => ∀ a ∈ c₁, ∀ b ∈ c₂, k a ≠ k b) := by
  intro fuel
  induction fuel with
  | zero => intro kvs _; exact List.Pairwise.nil
  | succ m ih =>
    intro kvs hs
    match kvs with
    | [] => exact List.Pairwise.nil
    | x :: xs =>
      simp only [makeChunks]
      refine List.pairwise_cons.mpr ⟨?_, ?_⟩
      · intro c₂ hc₂ a ha b hb
        have hbR : b ∈ (takeChunk k n (x :: xs)).2 := by
          have hflat : b ∈ (makeChunks k n m ((takeChunk k n (x :: xs)).2)).1.flatten :=
            List.mem_flatten.mpr ⟨c₂, hc₂, hb⟩
          have hmk := makeChunks_flatten k n m ((takeChunk k n (x :: xs)).2)
          rw [← hmk]
          exact List.mem_append_left _ hflat
        exact takeChunk_disjoint k n (x :: xs) hs a ha b hbR
      · apply ih
        have hdecomp := takeChunk_append k n (x :: xs)
        have hp : ((takeChunk k n (x :: xs)).1 ++ (takeChunk k n (x :: xs)).2).Pairwise
            (fun a b => k a ≤ k b) := by rw [hdecomp]; exact hs
        exact (List.pairwise_append.mp hp).2.1

theorem le_chunkSizeOf_mul (n : Nat) : n ≤ chunkSizeOf n * maxWriterWorkers := by
  have h1 := Nat.div_add_mod n 32
  have h2 : n % 32 < 32 := Nat.mod_lt _ (by norm_num)
  have h3 : n / 32 + 1 ≤ chunkSizeOf n := by
    unfold chunkSizeOf maxWriterWorkers
    exact le_max_left _ _
  have h4 : chunkSizeOf n * maxWriterWorkers = chunkSizeOf n * 32 := rfl
  rw [h4]
  calc n ≤ (n / 32 + 1) * 32 := by omega
    _ ≤ chunkSizeOf n * 32 := Nat.mul_le_mul_right _ h3

theorem flushChunksPlan_rest (k : KV → Key) (kvs : List KV) :
    (flushChunksPlan k kvs).2 = [] := by
  unfold flushChunksPlan
  apply makeChunks_rest_nil
  rw [sortKVs_length]
  exact le_chunkSizeOf_mul kvs.length

theorem flushChunksPlan_flatten (k : KV → Key) (kvs : List KV) :
    (flushChunksPlan k kvs).1.flatten = sortKVs k kvs := by
  have h := makeChunks_flatten k (chunkSizeOf kvs.length) maxWriterWorkers (sortKVs k kvs)
  have h2 := flushChunksPlan_rest k kvs
  unfold flushChunksPlan at h2 ⊢
  rw [h2, List.append_nil] at h
  exact h

theorem flushChunksPlan_count (k : KV → Key) (kvs : List KV) :
    (flushChunksPlan k kvs).1.length ≤ maxWriterWorkers :=
  makeChunks_count k (chunkSizeOf kvs.length) maxWriterWorkers (sortKVs k kvs)

theorem flushChunksPlan_disjoint (k : KV → Key) (kvs : List KV) :
    (flushChunksPlan k kvs).1.Pairwise
      (fun c₁ c₂ => ∀ a ∈ c₁, ∀ b ∈ c₂, k a ≠ k b) :=
  makeChunks_disjoint k (chunkSizeOf kvs.length) maxWriterWorkers (sortKVs k kvs)
    (sortKVs_key_sorted k kvs)

theorem drainGo_emitted (cfg : PurgCfg) (now : Nat) (force : Bool)
    (f : List KV → Bool → Except Unit (List KV)) :
    ∀ (purg purg' : List PurgEntry) (em : List (List RSpan)),
    drainGo cfg now force f purg = .ok (purg', em) →
    ∀ ss ∈ em, ∃ e ∈ purg, e.ckpt = some ss ∧ ∃ m, f e.events m = .ok [] := by
  intro purg
  induction purg with
  | nil =>
    intro purg' em hd ss hss
    simp only [drainGo, Except.ok.injEq, Prod.mk.injEq] at hd
    obtain ⟨-, h2⟩ := hd
    rw [← h2] at hss
    simp at hss
  | cons e rest ih =>
    intro purg' em hd ss hss
    simp only [drainGo] at hd
    split at hd
    · -- eligible for a retry
      split at hd
      · exact Except.noConfusion hd
      · rename_i remaining hf
        split at hd
        · exact Except.noConfusion hd
        · rename_i rest' em' hdrest
          split at hd
          · rename_i hemp
            simp only [Except.ok.injEq, Prod.mk.injEq] at hd
            obtain ⟨-, h2⟩ := hd
            rw [← h2] at hss
            rcases List.mem_append.mp hss with hin | hin
            · have hck : e.ckpt = some ss := by
                cases hc : e.ckpt with
                | none => rw [hc] at hin; simp at hin
                | some c =>
                  rw [hc] at hin
                  simp only [Option.toList_some, List.mem_singleton] at hin
                  rw [hin]
              refine ⟨e, List.mem_cons_self e rest, hck,
                force || decide (cfg.deadline ≤ now - e.since) ||
                  decide (cfg.levelLimit ≤ e.level), ?_⟩
              rw [List.isEmpty_iff.mp hemp] at hf
              exact hf
            · obtain ⟨e', he', hck, m, hm⟩ := ih rest' em' hdrest ss hin
              exact ⟨e', List.mem_cons_of_mem e he', hck, m, hm⟩
          · simp only [Except.ok.injEq, Prod.mk.injEq] at hd
            obtain ⟨-, h2⟩ := hd
            rw [← h2] at hss
            obtain ⟨e', he', hck, m, hm⟩ := ih rest' em' hdrest ss hss
            exact ⟨e', List.mem_cons_of_mem e he', hck, m, hm⟩
    · -- skipped: retried too recently
      split at hd
      · exact Except.noConfusion hd
      · rename_i rest' em' hdrest
        simp only [Except.ok.injEq, Prod.mk.injEq] at hd
        obtain ⟨-, h2⟩ := hd
        rw [← h2] at hss
        obtain ⟨e', he', hck, m, hm⟩ := ih rest' em' hdrest ss hss
        exact ⟨e', List.mem_cons_of_mem e he', hck, m, hm⟩

theorem emitChain_out {F : Type} (fwd : F → RSpan → Except Unit F) :
    ∀ (em : List (List RSpan)) (fr fr' : F) (out : List (List RSpan)) (m : Nat),
    emitChain fwd fr em = .ok (fr', out, m) → out = em := by
  intro em
  induction em with
  | nil =>
    intro fr fr' out m h
    simp only [emitChain, Except.ok.injEq, Prod.mk.injEq] at h
    exact h.2.1.symm
  | cons ss rest ih =>
    intro fr fr' out m h
    simp only [emitChain] at h
    split at h
    · exact Except.noConfusion h
    · rename_i r hr
      split at h
      · exact Except.noConfusion h
      · rename_i fr₂ out₂ m₂ hrec
        simp only [Except.ok.injEq, Prod.mk.injEq] at h
        obtain ⟨-, h2, -⟩ := h
        have hrem : r.emitted = ss := by
          simp only [checkpointImpl] at hr
          split at hr
          · exact Except.noConfusion hr
          · rename_i fr₃ hfwd
            simp only [Except.ok.injEq] at hr
            rw [← hr]
        rw [← h2, hrem, ih r.frontier fr₂ out₂ m₂ hrec]

theorem sortKVs_row_ts_sorted (k : KV → Key) (kvs : List KV) (p : Key) :
    ((sortKVs k kvs).filter (fun kv => decide (k kv = p))).Pairwise
      (fun a b => a.ts ≤ b.ts) := by
  have h := (sortKVs_sorted k kvs).filter (fun kv => decide (k kv = p))
  refine h.imp_of_mem (fun {a b} ha hb hab => ?_)
  have hka : k a = p := of_decide_eq_true (List.mem_filter.mp ha).2
  have hkb : k b = p := of_decide_eq_true (List.mem_filter.mp hb).2
  rcases hab with hlt | ⟨-, hts⟩
  · exact absurd hlt (by rw [hka, hkb]; exact lt_irrefl p)
  · exact hts

theorem chunks_row_once (k : KV → Key) (p : Key) :
    ∀ (cs : List (List KV)),
    cs.Pairwise (fun c₁ c₂ => ∀ a ∈ c₁, ∀ b ∈ c₂, k a ≠ k b) →
    (cs.filter (fun c => c.any (fun kv => decide (k kv = p)))).length ≤ 1 := by
  intro cs
  induction cs with
  | nil => intro _; simp
  | cons c cs ih =>
    intro hp
    obtain ⟨hhead, htail⟩ := List.pairwise_cons.mp hp
    by_cases hc : c.any (fun kv => decide (k kv = p)) = true
    · have hnone : cs.filter (fun c => c.any (fun kv => decide (k kv = p))) = [] := by
        apply List.filter_eq_nil_iff.mpr
        intro c₂ hc₂ hcon
        obtain ⟨a, ha, hka⟩ := List.any_eq_true.mp hc
        obtain ⟨b, hb, hkb⟩ := List.any_eq_true.mp hcon
        exact hhead c₂ hc₂ a ha b hb
          (by rw [of_decide_eq_true hka, of_decide_eq_true hkb])
      simp [List.filter_cons, hc, hnone]
    · simp only [List.filter_cons, hc, if_false]
      exact ih htail

/-! ## The claims -/

/-- C1 (code bug): the claim says that when `notProcessed > 0` after all
workers join, the returned `unapplied` contains exactly the input entries
whose application neither succeeded nor was dead-lettered.  The source
instead applies `filterRemaining` to the leftover value of the `kvs`
variable, which the chunking loop has always consumed entirely (32 chunks of
at least `⌊N/32⌋+1` elements cover any buffer), so `unapplied` is an empty
slice whenever `notProcessed > 0`.  At the failing input — a one-event
buffer whose application fails retriably with `mustProcess = false` — the
event stays in the buffer (`finalBuffer`), is not dead-lettered
(`dlqd = []`), yet the returned `unapplied` is `some []` instead of
containing the event, contradicting `flushBuffer`'s own doc comment and the
purgatory hand-off in `handleStreamBuffer`. -/
theorem claim1_flushBuffer_loses_unapplied :
    flushBufferImpl failParams [⟨[1], 7, 0⟩] false =
      .ok { unapplied := some [], finalBuffer := [⟨[1], 7, 0⟩], dlqd := [],
            notProcessed := 1, appliedRows := 1, appliedBytes := 0,
            c2cBase := some 7, flushStarted := true, chunksDispatched := 1 } := rfl

/-- C2: within a single `flushBuffer` call, the chunks dispatched to
different workers have pairwise-disjoint sets of row-prefix keys: the buffer
is sorted by (row prefix, timestamp) and each chunk is extended forward while
the next key shares the row prefix of the chunk's last element, so every
revision of a given row lands in exactly one chunk. -/
theorem claim2_chunks_rows_disjoint (k : KV → Key) (kvs : List KV) :
    (flushChunksPlan k kvs).1.Pairwise
      (fun c₁ c₂ => ∀ a ∈ c₁, ∀ b ∈ c₂, k a ≠ k b) :=
  flushChunksPlan_disjoint k kvs

/-- C3 (amended): when purgatory is non-empty, `maybeCheckpoint` attaches the
incoming resolved spans to purgatory and attempts a drain — the outcome is
exactly that of draining the attached purgatory, never a direct `checkpoint`
call on the incoming spans — and every checkpoint delivered on the channel is
one attached to a purgatory entry whose events fully drained (the entry being
removed).  The original claim's stronger clause, that no checkpoint at all is
forwarded while purgatory holds any entry, fails: a drain may empty and emit
one entry while another entry (skipped by the retry-delay gate) remains; see
the counterexample. -/
theorem claim3_checkpoint_gate_amended {F : Type} (P : Params) (cfg : PurgCfg)
    (now : Nat) (fwd : F → RSpan → Except Unit F) (st : PState F)
    (spans : Option (List RSpan)) (hne : st.purg ≠ []) (st' : PState F)
    (outs : List (List RSpan))
    (hok : maybeCheckpointImpl P cfg now fwd st spans = .ok (st', outs)) :
    (∃ purg₂, drainGo cfg now false (drainFlushOf P) (purgCheckpoint spans st.purg)
        = .ok (purg₂, outs) ∧ st'.purg = purg₂) ∧
    (∀ ss ∈ outs, ∃ e ∈ purgCheckpoint spans st.purg, e.ckpt = some ss ∧
      ∃ m, drainFlushOf P e.events m = .ok []) := by
  have hempty : st.purg.isEmpty = false := by
    cases hp : st.purg with
    | nil => exact absurd hp hne
    | cons a l => rfl
  simp only [maybeCheckpointImpl, hempty, Bool.false_eq_true, if_false] at hok
  split at hok
  · exact Except.noConfusion hok
  · rename_i purg₂ emitted hdrain
    split at hok
    · exact Except.noConfusion hok
    · exact Except.noConfusion hok
    · rename_i fr' out m hemit
      simp only [Except.ok.injEq, Prod.mk.injEq] at hok
      obtain ⟨hst, hout⟩ := hok
      have hout' : out = emitted := emitChain_out fwd emitted st.frontier fr' out m hemit
      refine ⟨⟨purg₂, ?_, ?_⟩, ?_⟩
      · rw [← hout, hout']
        exact hdrain
      · rw [← hst]
      · intro ss hss
        apply drainGo_emitted cfg now false (drainFlushOf P)
          (purgCheckpoint spans st.purg) purg₂ emitted hdrain ss
        rw [← hout', hout]
        exact hss

/-- C3, counterexample to the claim as stated: a `maybeCheckpoint` call with
two purgatory entries in which `entryB` (holding the freshly attached
checkpoint) drains empty and its checkpoint is delivered on the channel,
while `entryA` — skipped because its last retry was less than `delay` ago —
remains in purgatory.  A checkpoint is thus forwarded while purgatory still
holds an entry. -/
theorem claim3_counterexample :
    maybeCheckpointImpl okParams cfg₀ 10 unitForward
        ⟨(), [entryA, entryB]⟩ (some [⟨1, 9⟩]) =
      .ok (⟨(), [entryA]⟩, [[⟨1, 9⟩]]) ∧
    ([[⟨1, 9⟩]] : List (List RSpan)) ≠ [] ∧
    ([entryA] : List PurgEntry) ≠ [] :=
  ⟨rfl, by decide, by decide⟩

/-- C3, witness: the amended theorem applied to the concrete two-entry
purgatory of the counterexample. -/
theorem claim3_witness :
    (∃ purg₂, drainGo cfg₀ 10 false (drainFlushOf okParams)
        (purgCheckpoint (some [⟨1, 9⟩]) [entryA, entryB]) = .ok (purg₂, [[⟨1, 9⟩]]) ∧
        ((⟨(), [entryA]⟩ : PState Unit)).purg = purg₂) ∧
    (∀ ss ∈ [[(⟨1, 9⟩ : RSpan)]], ∃ e ∈ purgCheckpoint (some [⟨1, 9⟩]) [entryA, entryB],
      e.ckpt = some ss ∧ ∃ m, drainFlushOf okParams e.events m = .ok []) :=
  claim3_checkpoint_gate_amended okParams cfg₀ 10 unitForward
    ⟨(), [entryA, entryB]⟩ (some [⟨1, 9⟩]) (by decide) ⟨(), [entryA]⟩
    [[⟨1, 9⟩]] (by rfl)

/-- C4 (code bug): the claim (and `flushBuffer`'s own doc comment, source
lines 482-489) says a dead-lettered event's slot is zeroed.  The source never
zeroes a slot on the DLQ path (lines 601-606 and 613-618).  First conjunct: a
size-1 batch failing with `mustProcess = true` is sent to the DLQ
(`dlqd = [kv]`) yet its slot still holds the event.  Second conjunct, the
size > 1 re-attempt path: of a failing 2-row batch, the first row fails
retriably (slot kept, `notProcessed = 1`) and the second succeeds
individually (slot zeroed, its stats added via `batchStats.Add`, which drops
`notProcessed`). -/
theorem claim4_dlq_slot_not_zeroed :
    flushChunk true failHandler noDlqFail 1 true [⟨[1], 7, 0⟩] =
      .ok ([⟨[1], 7, 0⟩], ⟨0, 0, 0⟩, [⟨[1], 7, 0⟩]) ∧
    flushChunk false bOnlyHandler noDlqFail 2 false [⟨[1], 0, 0⟩, ⟨[2], 0, 0⟩] =
      .ok ([⟨[1], 0, 0⟩, KV.zero], ⟨1, 3, 2⟩, []) :=
  ⟨rfl, rfl⟩

/-- C5 (amended): `checkpoint` returns the protocol error exactly when the
resolved spans are `nil` (not merely empty: the source tests
`resolvedSpans == nil`); otherwise it forwards the frontier for each resolved
span in order, surfaces any forward error as fatal, and on success delivers
the spans on the checkpoint channel and bumps the checkpoint metric. -/
theorem claim5_checkpoint_amended {F : Type} (fwd : F → RSpan → Except Unit F)
    (fr : F) :
    checkpointImpl fwd fr none = .error .protocol ∧
    (∀ ss fr', forwardAll fwd fr ss = .ok fr' →
      checkpointImpl fwd fr (some ss) = .ok ⟨fr', ss, 1⟩) ∧
    (∀ ss u, forwardAll fwd fr ss = .error u →
      checkpointImpl fwd fr (some ss) = .error .forward) := by
  refine ⟨rfl, ?_, ?_⟩
  · intro ss fr' h
    simp [checkpointImpl, h]
  · intro ss u h
    simp [checkpointImpl, h]

/-- C5, counterexample to the claim as stated: an empty-but-present resolved
span list is *not* rejected — `checkpoint` succeeds, forwards nothing, and
delivers the empty list on the channel — because the source checks
`resolvedSpans == nil`, which an empty non-nil Go slice passes. -/
theorem claim5_counterexample :
    checkpointImpl natForward 0 (some []) = .ok ⟨0, [], 1⟩ := rfl

/-- C5, witness: the amended theorem's success conjunct at a concrete
forward function, frontier, and resolved span. -/
theorem claim5_witness :
    forwardAll natForward 0 [⟨0, 5⟩] = .ok 1 ∧
    checkpointImpl natForward 0 (some [⟨0, 5⟩]) = .ok ⟨1, [⟨0, 5⟩], 1⟩ :=
  ⟨rfl, (claim5_checkpoint_amended natForward 0).2.1 [⟨0, 5⟩] 1 rfl⟩

/-- C6 (amended): `flushBuffer` partitions the sorted buffer into at most
`maxWriterWorkers = 32` chunks whose concatenation is the whole sorted
buffer, with target chunk size `max(⌊N/W⌋+1, 64)` — a *floor* division, not
the ceiling the claim states (see the counterexample). -/
theorem claim6_chunking_amended (k : KV → Key) (kvs : List KV) :
    (flushChunksPlan k kvs).1.length ≤ maxWriterWorkers ∧
    (flushChunksPlan k kvs).1.flatten = sortKVs k kvs ∧
    chunkSizeOf kvs.length = max (kvs.length / maxWriterWorkers + 1) 64 :=
  ⟨flushChunksPlan_count k kvs, flushChunksPlan_flatten k kvs, rfl⟩

/-- C6, counterexample to the claim as stated: at `N = 2047` the source's
target chunk size (floor division, `chunkSizeOf`) is 64 while the claim's
formula `max(⌈N/W⌉+1, 64)` (`chunkSizeOfSpecCeil`) gives 65. -/
theorem claim6_counterexample :
    chunkSizeOf 2047 = 64 ∧ chunkSizeOfSpecCeil 2047 = 65 ∧
    chunkSizeOf 2047 ≠ chunkSizeOfSpecCeil 2047 := by decide

/-- C7: `flushBuffer` sorts the buffer by (row prefix, commit timestamp)
before chunking: the sorted buffer is a permutation of the input, sorted
w.r.t. the comparator; within any one row prefix its revisions appear in
nondecreasing commit-timestamp order (so the most recent version is applied
last, workers applying their chunk in order); and at most one dispatched
chunk contains a given row prefix. -/
theorem claim7_sort_lww_order (k : KV → Key) (kvs : List KV) :
    List.Perm (sortKVs k kvs) kvs ∧
    (sortKVs k kvs).Pairwise (kvLE k) ∧
    (∀ p : Key, ((sortKVs k kvs).filter (fun kv => decide (k kv = p))).Pairwise
      (fun a b => a.ts ≤ b.ts)) ∧
    (∀ p : Key, ((flushChunksPlan k kvs).1.filter
      (fun c => c.any (fun kv => decide (k kv = p)))).length ≤ 1) :=
  ⟨sortKVs_perm k kvs, sortKVs_sorted k kvs,
    fun p => sortKVs_row_ts_sorted k kvs p,
    fun p => chunks_row_once k p (flushChunksPlan k kvs).1
      (flushChunksPlan_disjoint k kvs)⟩

/-- C8: the dispatcher routes a KV event to the applier
(`handleStreamBuffer`), a checkpoint event to the frontier gate
(`maybeCheckpoint`), logs and ignores a split event (state unchanged, no
error, nothing emitted), rejects SSTable and delete-range events with the
fatal "unexpected event for online stream" error, and any other event type
with the fatal unknown-event error. -/
theorem claim8_event_dispatch {F : Type} (P : Params) (cfg : PurgCfg)
    (now : Nat) (fwd : F → RSpan → Except Unit F) (st : PState F) :
    (∀ kvs, handleEventImpl P cfg now fwd st (.kv kvs) =
      handleStreamBufferImpl P cfg now fwd st kvs) ∧
    (∀ spans, handleEventImpl P cfg now fwd st (.checkpoint spans) =
      maybeCheckpointImpl P cfg now fwd st spans) ∧
    handleEventImpl P cfg now fwd st .split = .ok (st, []) ∧
    handleEventImpl P cfg now fwd st .sstable = .error .unexpectedOnlineStream ∧
    handleEventImpl P cfg now fwd st .deleteRange = .error .unexpectedOnlineStream ∧
    (∀ t, handleEventImpl P cfg now fwd st (.other t) = .error (.unknownType t)) :=
  ⟨fun _ => rfl, fun _ => rfl, rfl, rfl, rfl, fun _ => rfl⟩

/-- C9 (amended): the commit-to-commit latency recorded by `flushBuffer` is
measured from the commit timestamp of the *first* KV of the buffer in its
arrival order — `kvs[0]` read before the sort (source line 513) — not from
the minimum commit timestamp the claim states (see the counterexample). -/
theorem claim9_c2c_base_amended (P : Params) (kv : KV) (tl : List KV)
    (b : Bool) (r : FlushResult)
    (h : flushBufferImpl P (kv :: tl) b = .ok r) : r.c2cBase = some kv.ts := by
  simp only [flushBufferImpl] at h
  split at h
  · exact Except.noConfusion h
  · rename_i processed st dl hrun
    simp only [Except.ok.injEq] at h
    rw [← h]

/-- C9, counterexample to the claim as stated: a buffer whose first-arrived
KV has timestamp 10 while another KV has the smaller timestamp 5; the
recorded base is 10, not the minimum 5. -/
theorem claim9_counterexample :
    flushBufferImpl okParams [⟨[1], 10, 0⟩, ⟨[0], 5, 1⟩] false =
      .ok { unapplied := none, finalBuffer := [KV.zero, KV.zero], dlqd := [],
            notProcessed := 0, appliedRows := 2, appliedBytes := 0,
            c2cBase := some 10, flushStarted := true, chunksDispatched := 1 } ∧
    (∃ kv ∈ [(⟨[1], 10, 0⟩ : KV), ⟨[0], 5, 1⟩], kv.ts < 10) :=
  ⟨rfl, by decide⟩

/-- C9, witness: the amended theorem applied to the two-event buffer of the
counterexample. -/
theorem claim9_witness :
    (FlushResult.c2cBase
      { unapplied := none, finalBuffer := [KV.zero, KV.zero], dlqd := [],
        notProcessed := 0, appliedRows := 2, appliedBytes := 0,
        c2cBase := some 10, flushStarted := true, chunksDispatched := 1 }) =
      some (KV.ts ⟨[1], 10, 0⟩) :=
  claim9_c2c_base_amended okParams ⟨[1], 10, 0⟩ [⟨[0], 5, 1⟩] false _ (by rfl)

/-- C10: on the empty KV buffer, for either value of `mustProcess`,
`flushBuffer` returns `(nil, nil)` immediately: no error, `unapplied = nil`,
no worker dispatched, nothing dead-lettered, and every metric and debug
update of the flush path (flush-start record, applied-rows and applied-bytes
counters, commit-to-commit latency) left untouched. -/
theorem claim10_empty_buffer_noop (P : Params) (mustProcess : Bool) :
    flushBufferImpl P [] mustProcess =
      .ok { unapplied := none, finalBuffer := [], dlqd := [], notProcessed := 0,
            appliedRows := 0, appliedBytes := 0, c2cBase := none,
            flushStarted := false, chunksDispatched := 0 } := rfl
